import Mathlib

/-!
Verification of the pyfastmem storage core (`pyfastmem/storage.py`).

The development shallowly embeds the two classes of the source file:

* `Storage` — password-derived key handling and authenticated
  encryption/decryption (`set_password`, `_load_salt`, `unlock`,
  `encrypt`, `decrypt`);
* `MemoryManager` — the key→blob-file index with its operations
  (`set`, `get`, `delete`, `clear`, `lock`, `unlock`, `save`, `load`).

External collaborators (the `json` module, the `cryptography` Fernet
primitive, the filesystem and the `secrets` random source) are modelled
at the interface level the source relies on; each model carries a doc
comment saying what it stands for.  Stateful Python methods become
functions from a `World` (manager state, filesystem, randomness oracle)
to a result paired with the updated `World`; a Python exception becomes
an `Except.error` result, and mutations performed before a raise are
reflected in the returned `World`.
-/

namespace PyFastMem

/-- Values of Python's JSON-serializable domain, as produced/consumed by
`json.dumps` / `json.loads` in `MemoryManager.set` / `MemoryManager.get`.
Numbers are modelled as integers. -/
inductive JsonValue where
  | null : JsonValue
  | bool (b : Bool) : JsonValue
  | num (n : Int) : JsonValue
  | str (s : String) : JsonValue
  | arr (elems : List JsonValue) : JsonValue
  | obj (fields : List (String × JsonValue)) : JsonValue

/-- A decrypted byte payload: either the canonical JSON text of a value, or
text that is not valid JSON.  Models the plaintext strings flowing between
`json.dumps`/`json.loads` and `Storage.encrypt`/`Storage.decrypt`; the
canonical text of a value is identified with the value it denotes, which is
sound because `json.dumps` is injective on the serializable domain. -/
inductive Plaintext where
  | json (v : JsonValue) : Plaintext
  | nonJson (s : String) : Plaintext

/-- Models `json.dumps`: every serializable value renders to its canonical
JSON text. -/
def dumps (v : JsonValue) : Plaintext := .json v

/-- Models `json.loads`: parsing the canonical text of `v` yields `v`;
parsing non-JSON text raises (modelled as `none`). -/
def loads : Plaintext → Option JsonValue
  | .json v => some v
  | .nonJson _ => none

/-- Models a Fernet key as the data it is derived from: PBKDF2-HMAC-SHA256
over the password and salt (`storage.py` lines 40–47 and 65–72).  Distinct
password/salt pairs give distinct keys, modelling the collision resistance
of the derivation. -/
structure FernetKey where
  password : String
  salt : Nat
deriving DecidableEq, Repr

/-- Models the content of a blob file: a Fernet authenticated-encryption
token (recording the key it was produced under and its plaintext), or
arbitrary non-token text (a corrupted or foreign file). -/
inductive FileContent where
  | token (key : FernetKey) (payload : Plaintext) : FileContent
  | garbage (s : String) : FileContent

/-- The Python exceptions raised by `storage.py`, by kind. -/
inductive Err where
  /-- `ValueError("Storage is locked")` from `Storage.encrypt`/`decrypt`. -/
  | vaultLocked : Err
  /-- `RuntimeError("Memory is locked")` from the `MemoryManager` mutators. -/
  | memoryLocked : Err
  /-- `ValueError("No password set for this storage")` from `Storage._load_salt`. -/
  | notInitialized : Err
  /-- `cryptography.fernet.InvalidToken` from a failed integrity check. -/
  | authenticationFailed : Err
  /-- `FileNotFoundError` from opening a missing file. -/
  | fileNotFound : Err
  /-- `json.JSONDecodeError` from `json.loads` on non-JSON text. -/
  | jsonDecodeError : Err
  /-- `RuntimeError(f"Failed to read key '{key}': ...")` from
  `MemoryManager.get`, wrapping the underlying exception. -/
  | readFailure (key : String) (cause : Err) : Err
  /-- `ValueError(f"No saved state found with name '{name}'")` from
  `MemoryManager.load`. -/
  | snapshotNotFound (name : String) : Err
deriving DecidableEq, Repr

/-- Association-list lookup: first entry with the given key.  Models
Python `dict` lookup (keys are unique in every dict the source builds). -/
def assocGet {α β : Type} [DecidableEq α] : List (α × β) → α → Option β
  | [], _ => none
  | (k', v') :: rest, k => if k' = k then some v' else assocGet rest k

/-- Association-list update: replace the first entry with the given key,
or append.  Models Python `dict` item assignment. -/
def assocSet {α β : Type} [DecidableEq α] : List (α × β) → α → β → List (α × β)
  | [], k, v => [(k, v)]
  | (k', v') :: rest, k, v =>
      if k' = k then (k, v) :: rest else (k', v') :: assocSet rest k v

/-- Association-list removal of the first entry with the given key.
Models Python `dict.pop`. -/
def assocErase {α β : Type} [DecidableEq α] : List (α × β) → α → List (α × β)
  | [], _ => []
  | (k', v') :: rest, k => if k' = k then rest else (k', v') :: assocErase rest k

/-- The parsed content of a `<name>.state` snapshot file, as written by
`MemoryManager.save`: the key→blob-filename mapping and the lock flag. -/
structure Snapshot where
  memory : List (String × Nat)
  locked : Bool
deriving DecidableEq, Repr

/-- Models the storage-root directory: the `.salt` file, the `<id>.dat`
blob files (blob identifiers are the fresh random hex tokens of
`secrets.token_hex(16)`, modelled as distinct naturals drawn from a
freshness oracle), and the `<name>.state` snapshot files. -/
structure FS where
  salt : Option Nat
  blobs : List (Nat × FileContent)
  snapshots : List (String × Snapshot)

/-- Read a blob file; `none` models `FileNotFoundError`. -/
def FS.readBlob (fs : FS) (f : Nat) : Option FileContent :=
  assocGet fs.blobs f

/-- Write (create or overwrite) a blob file. -/
def FS.writeBlob (fs : FS) (f : Nat) (c : FileContent) : FS :=
  { fs with blobs := assocSet fs.blobs f c }

/-- `os.remove` on a blob file: fails (`none`, an `OSError`) iff the file
is absent. -/
def FS.removeBlob (fs : FS) (f : Nat) : Option FS :=
  match assocGet fs.blobs f with
  | some _ => some { fs with blobs := assocErase fs.blobs f }
  | none => none

/-- Read a snapshot file; `none` models `FileNotFoundError`. -/
def FS.readSnapshot (fs : FS) (name : String) : Option Snapshot :=
  assocGet fs.snapshots name

/-- Write (create or overwrite) a snapshot file. -/
def FS.writeSnapshot (fs : FS) (name : String) (s : Snapshot) : FS :=
  { fs with snapshots := assocSet fs.snapshots name s }

/-- The `Storage` object state: `self._fernet` (`none` = no key held).
The path fields of the source only locate the directory modelled by `FS`
and carry no further state. -/
structure Storage where
  fernet : Option FernetKey
deriving DecidableEq, Repr

/-- `Storage._load_salt`: raises `ValueError` (`notInitialized`) when the
`.salt` file is absent, else returns its bytes. -/
def Storage.loadSalt (fs : FS) : Except Err Nat :=
  match fs.salt with
  | none => .error .notInitialized
  | some s => .ok s

/-- `Storage.set_password`: draws a fresh random salt, derives the key,
holds it, and persists the salt.  `ctr` is the freshness oracle for
`secrets.token_bytes(16)`. -/
def Storage.setPassword (st : Storage) (password : String) (fs : FS) (ctr : Nat) :
    Storage × FS × Nat :=
  let salt := ctr
  let key : FernetKey := ⟨password, salt⟩
  ({ st with fernet := some key }, { fs with salt := some salt }, ctr + 1)

/-- `Storage.unlock`: loads the salt and re-derives the key; any exception
(only the missing-salt `ValueError` can occur, derivation cannot fail) is
caught and turned into a `false` return. -/
def Storage.unlock (st : Storage) (password : String) (fs : FS) : Bool × Storage :=
  match Storage.loadSalt fs with
  | .error _ => (false, st)
  | .ok salt => (true, { st with fernet := some ⟨password, salt⟩ })

/-- `Storage.encrypt`: raises `ValueError` (`vaultLocked`) when no key is
held, else produces the authenticated token under the held key. -/
def Storage.encrypt (st : Storage) (data : Plaintext) : Except Err FileContent :=
  match st.fernet with
  | none => .error .vaultLocked
  | some k => .ok (.token k data)

/-- `Storage.decrypt`: raises `ValueError` (`vaultLocked`) when no key is
held; raises `InvalidToken` (`authenticationFailed`) when the token's
integrity check fails — a token produced under a different key, or
non-token data. -/
def Storage.decrypt (st : Storage) (c : FileContent) : Except Err Plaintext :=
  match st.fernet with
  | none => .error .vaultLocked
  | some k =>
    match c with
    | .token k' p => if k' = k then .ok p else .error .authenticationFailed
    | .garbage _ => .error .authenticationFailed

/-- The `MemoryManager` object state: its `Storage`, the in-memory
key→blob-filename mapping `self._memory`, and the lock flag `self._locked`. -/
structure MemoryManager where
  storage : Storage
  memory : List (String × Nat)
  locked : Bool

/-- The whole mutable state an operation can touch: the manager object,
the storage-root directory, and the freshness oracle standing for the
`secrets` random source (each draw returns the counter and increments it;
distinct draws are distinct, modelling collision-resistant random tokens). -/
structure World where
  mm : MemoryManager
  fs : FS
  nextToken : Nat

/-- A fresh store: empty mapping, unlocked, no key, empty directory. -/
def World.init : World :=
  { mm := { storage := { fernet := none }, memory := [], locked := false },
    fs := { salt := none, blobs := [], snapshots := [] },
    nextToken := 0 }

/-- `Storage.set_password` lifted to the world. -/
def World.setPassword (w : World) (password : String) : World :=
  let r := Storage.setPassword w.mm.storage password w.fs w.nextToken
  { w with mm := { w.mm with storage := r.1 }, fs := r.2.1, nextToken := r.2.2 }

/-- `Storage.unlock` lifted to the world. -/
def World.vaultUnlock (w : World) (password : String) : Bool × World :=
  let r := Storage.unlock w.mm.storage password w.fs
  (r.1, { w with mm := { w.mm with storage := r.2 } })

/-- `MemoryManager.set`: raises `memoryLocked` if the lock flag is set;
serializes, encrypts (propagating `vaultLocked` before anything is
mutated), draws a fresh random filename, writes the ciphertext to that
new blob file, then updates the mapping.  The old blob of an overwritten
key is not touched. -/
def MemoryManager.set (w : World) (key : String) (value : JsonValue) :
    Except Err Unit × World :=
  if w.mm.locked then (.error .memoryLocked, w)
  else
    match Storage.encrypt w.mm.storage (dumps value) with
    | .error e => (.error e, w)
    | .ok encrypted =>
      let filename := w.nextToken
      let fs' := w.fs.writeBlob filename encrypted
      (.ok (),
        { w with
          mm := { w.mm with memory := assocSet w.mm.memory key filename },
          fs := fs',
          nextToken := w.nextToken + 1 })

/-- `MemoryManager.get`: absent key returns the default; for a present key,
read/decrypt/deserialize, wrapping any exception of that pipeline in a
`RuntimeError` naming the key (`readFailure`).  Mutates nothing. -/
def MemoryManager.get (w : World) (key : String) (dflt : JsonValue) :
    Except Err JsonValue :=
  match assocGet w.mm.memory key with
  | none => .ok dflt
  | some filename =>
    let pipeline : Except Err JsonValue :=
      match w.fs.readBlob filename with
      | none => .error .fileNotFound
      | some encrypted =>
        match Storage.decrypt w.mm.storage encrypted with
        | .error e => .error e
        | .ok decrypted =>
          match loads decrypted with
          | none => .error .jsonDecodeError
          | some v => .ok v
    match pipeline with
    | .ok v => .ok v
    | .error e => .error (.readFailure key e)

/-- `MemoryManager.delete`: absent key returns `false`; for a present key,
pops the mapping entry first, then attempts to remove the blob file,
returning `true` on success and `false` on an `OSError` (the pop is kept
either way).  The source performs no lock-flag check here. -/
def MemoryManager.delete (w : World) (key : String) : Bool × World :=
  match assocGet w.mm.memory key with
  | none => (false, w)
  | some filename =>
    let w1 := { w with mm := { w.mm with memory := assocErase w.mm.memory key } }
    match w1.fs.removeBlob filename with
    | some fs' => (true, { w1 with fs := fs' })
    | none => (false, w1)

/-- Best-effort removal of a list of blob files, ignoring `OSError`s. -/
def FS.removeBlobs (fs : FS) : List Nat → FS
  | [] => fs
  | f :: rest =>
    match fs.removeBlob f with
    | some fs' => fs'.removeBlobs rest
    | none => fs.removeBlobs rest

/-- `MemoryManager.clear`: raises `memoryLocked` if the lock flag is set;
best-effort deletes every referenced blob file, then empties the mapping. -/
def MemoryManager.clear (w : World) : Except Err Unit × World :=
  if w.mm.locked then (.error .memoryLocked, w)
  else
    (.ok (),
      { w with
        fs := w.fs.removeBlobs (w.mm.memory.map (·.2)),
        mm := { w.mm with memory := [] } })

/-- `MemoryManager.lock`: sets the lock flag. -/
def MemoryManager.lock (w : World) : World :=
  { w with mm := { w.mm with locked := true } }

/-- `MemoryManager.unlock`: clears the lock flag. -/
def MemoryManager.unlock (w : World) : World :=
  { w with mm := { w.mm with locked := false } }

/-- `MemoryManager.save`: raises `memoryLocked` if the lock flag is set;
writes `{memory, locked}` to the named snapshot file. -/
def MemoryManager.save (w : World) (name : String) : Except Err Unit × World :=
  if w.mm.locked then (.error .memoryLocked, w)
  else
    (.ok (), { w with fs := w.fs.writeSnapshot name ⟨w.mm.memory, w.mm.locked⟩ })

/-- `MemoryManager.load`: raises `memoryLocked` if the lock flag is set;
raises `ValueError` (`snapshotNotFound`) if the file is absent; otherwise
replaces the mapping and lock flag with the snapshot's contents. -/
def MemoryManager.load (w : World) (name : String) : Except Err Unit × World :=
  if w.mm.locked then (.error .memoryLocked, w)
  else
    match w.fs.readSnapshot name with
    | none => (.error (.snapshotNotFound name), w)
    | some s =>
      (.ok (), { w with mm := { w.mm with memory := s.memory, locked := s.locked } })

/-- The operations a client can perform on a store, for the reachability
arguments. -/
inductive Op where
  | opSetPassword (password : String) : Op
  | opVaultUnlock (password : String) : Op
  | opSet (key : String) (value : JsonValue) : Op
  | opGet (key : String) (dflt : JsonValue) : Op
  | opDelete (key : String) : Op
  | opClear : Op
  | opLock : Op
  | opUnlock : Op
  | opSave (name : String) : Op
  | opLoad (name : String) : Op

/-- The world after performing one operation (whether it raised or not:
a raise leaves exactly the mutations performed before it). -/
def runOp (w : World) : Op → World
  | .opSetPassword p => w.setPassword p
  | .opVaultUnlock p => (w.vaultUnlock p).2
  | .opSet k v => (MemoryManager.set w k v).2
  | .opGet _ _ => w
  | .opDelete k => (MemoryManager.delete w k).2
  | .opClear => (MemoryManager.clear w).2
  | .opLock => MemoryManager.lock w
  | .opUnlock => MemoryManager.unlock w
  | .opSave n => (MemoryManager.save w n).2
  | .opLoad n => (MemoryManager.load w n).2

/-- The world after a sequence of operations. -/
def runOps (w : World) (ops : List Op) : World :=
  ops.foldl runOp w

/-- The states reachable from a fresh store. -/
def reach (ops : List Op) : World :=
  runOps World.init ops

/-! ### Association-list lemmas -/

theorem assocGet_assocSet_self {α β : Type} [DecidableEq α]
    (m : List (α × β)) (k : α) (v : β) :
    assocGet (assocSet m k v) k = some v := by
  induction m with
  | nil => simp [assocGet, assocSet]
  | cons p rest ih =>
    by_cases h : p.1 = k
    · simp [assocGet, assocSet, h]
    · simp [assocGet, assocSet, h, ih]

theorem assocGet_assocSet_ne {α β : Type} [DecidableEq α]
    (m : List (α × β)) (k k' : α) (v : β) (hne : k' ≠ k) :
    assocGet (assocSet m k v) k' = assocGet m k' := by
  induction m with
  | nil => simp [assocGet, assocSet, Ne.symm hne]
  | cons p rest ih =>
    by_cases h : p.1 = k
    · subst h
      simp [assocGet, assocSet, Ne.symm hne]
    · simp only [assocSet, h, if_false]
      by_cases h' : p.1 = k'
      · simp [assocGet, h']
      · simp [assocGet, h', ih]

theorem assocGet_eq_none_iff {α β : Type} [DecidableEq α]
    (m : List (α × β)) (k : α) :
    assocGet m k = none ↔ k ∉ m.map Prod.fst := by
  induction m with
  | nil => simp [assocGet]
  | cons p rest ih =>
    by_cases h : p.1 = k
    · simp [assocGet, h]
    · simp [assocGet, h, ih, Ne.symm h]

theorem mem_of_assocGet_eq_some {α β : Type} [DecidableEq α]
    {m : List (α × β)} {k : α} {v : β} (h : assocGet m k = some v) :
    (k, v) ∈ m := by
  induction m with
  | nil => simp [assocGet] at h
  | cons p rest ih =>
    obtain ⟨a, b⟩ := p
    by_cases hk : a = k
    · subst hk
      simp only [assocGet, if_true] at h
      simp only [Option.some.injEq] at h
      subst h
      exact List.mem_cons_self _ _
    · simp only [assocGet, hk, if_false] at h
      exact List.mem_cons_of_mem _ (ih h)

theorem mem_assocSet {α β : Type} [DecidableEq α]
    {m : List (α × β)} {k : α} {v : β} {p : α × β} (h : p ∈ assocSet m k v) :
    p ∈ m ∨ p = (k, v) := by
  induction m with
  | nil => simp [assocSet] at h; simp [h]
  | cons q rest ih =>
    by_cases hk : q.1 = k
    · simp only [assocSet, hk, if_true, List.mem_cons] at h
      rcases h with h | h
      · right; simp [h]
      · left; exact List.mem_cons_of_mem _ h
    · simp only [assocSet, hk, if_false, List.mem_cons] at h
      rcases h with h | h
      · left; simp [h]
      · rcases ih h with h' | h'
        · left; exact List.mem_cons_of_mem _ h'
        · right; exact h'

theorem assocErase_sublist {α β : Type} [DecidableEq α]
    (m : List (α × β)) (k : α) :
    (assocErase m k).Sublist m := by
  induction m with
  | nil => simp [assocErase]
  | cons p rest ih =>
    by_cases h : p.1 = k
    · simp [assocErase, h, List.sublist_cons_self p rest]
    · simpa [assocErase, h] using List.Sublist.cons₂ p ih

theorem assocGet_assocErase_self {α β : Type} [DecidableEq α]
    (m : List (α × β)) (k : α) (hnd : (m.map Prod.fst).Nodup) :
    assocGet (assocErase m k) k = none := by
  induction m with
  | nil => simp [assocErase, assocGet]
  | cons p rest ih =>
    simp only [List.map_cons, List.nodup_cons] at hnd
    by_cases h : p.1 = k
    · simp only [assocErase, h, if_true]
      rw [assocGet_eq_none_iff]
      subst h
      exact hnd.1
    · simp [assocErase, assocGet, h, ih hnd.2]

theorem pairwise_ids_assocSet {α β : Type} [DecidableEq α]
    (m : List (α × β)) (k : α) (v : β)
    (hfresh : ∀ p ∈ m, p.2 ≠ v)
    (hm : m.Pairwise (fun a b => a.2 ≠ b.2)) :
    (assocSet m k v).Pairwise (fun a b => a.2 ≠ b.2) := by
  induction m with
  | nil => simp [assocSet]
  | cons q rest ih =>
    rcases List.pairwise_cons.mp hm with ⟨hq, hrest⟩
    by_cases hk : q.1 = k
    · simp only [assocSet, hk, if_true]
      refine List.pairwise_cons.mpr ⟨?_, hrest⟩
      intro b hb
      exact fun hvb => hfresh b (List.mem_cons_of_mem _ hb) hvb.symm
    · simp only [assocSet, hk, if_false]
      refine List.pairwise_cons.mpr ⟨?_, ?_⟩
      · intro b hb
        rcases mem_assocSet hb with h' | h'
        · exact hq b h'
        · subst h'
          exact hfresh q (List.mem_cons_self q rest)
      · exact ih (fun p hp => hfresh p (List.mem_cons_of_mem _ hp)) hrest

/-! ### Sample worlds used by the closed witness/counterexample theorems -/

/-- A store after `set_password("hunter2")`: salt `0` persisted, key
`⟨"hunter2", 0⟩` held, next random token `1`. -/
def w0 : World := World.init.setPassword "hunter2"

/-- `w0` after `set("alpha", 42)`: blob file `1` holds the token for `42`,
the mapping is `{"alpha" ↦ 1}`, next random token `2`. -/
def w1 : World := (MemoryManager.set w0 "alpha" (.num 42)).2

/-- `w1` after `lock()`. -/
def w1locked : World := MemoryManager.lock w1

/-! ### Claim theorems -/

/-- Claim C4: with the vault unlocked (a derived key held) and the index
not locked, `get key` performed right after `set key v` succeeds and
returns a value structurally equal to `v`: the serialize/encrypt and
decrypt/deserialize pipelines of `MemoryManager.set` and
`MemoryManager.get` round-trip. -/
theorem set_get_roundtrip (w : World) (key : String) (v dflt : JsonValue)
    (k : FernetKey) (hnl : w.mm.locked = false) (hk : w.mm.storage.fernet = some k) :
    (MemoryManager.set w key v).1 = .ok () ∧
    MemoryManager.get (MemoryManager.set w key v).2 key dflt = .ok v := by
  simp only [MemoryManager.set, hnl, if_false, Storage.encrypt, hk]
  refine ⟨rfl, ?_⟩
  simp [MemoryManager.get, assocGet_assocSet_self, FS.readBlob, FS.writeBlob,
    Storage.decrypt, hk, loads, dumps]

/-- Witness for C4 at a concrete store. -/
theorem set_get_roundtrip_witness :
    (MemoryManager.set w0 "alpha" (.num 42)).1 = .ok () ∧
    MemoryManager.get (MemoryManager.set w0 "alpha" (.num 42)).2 "alpha" .null
      = .ok (.num 42) :=
  set_get_roundtrip w0 "alpha" (.num 42) .null ⟨"hunter2", 0⟩ rfl rfl

/-- Claim C10: when the index is not locked but the Vault holds no derived
key, `set` fails with the vault's `Locked` error and the whole world —
in-memory mapping, blob files, snapshots, randomness — is returned
unchanged: the encryption step precedes both the blob write and the
mapping update. -/
theorem set_vault_locked_atomic (w : World) (key : String) (v : JsonValue)
    (hnl : w.mm.locked = false) (hk : w.mm.storage.fernet = none) :
    MemoryManager.set w key v = (.error .vaultLocked, w) := by
  simp [MemoryManager.set, hnl, Storage.encrypt, hk]

/-- Witness for C10 at a concrete store: fresh store, no password set. -/
theorem set_vault_locked_atomic_witness :
    MemoryManager.set World.init "alpha" (.num 7) = (.error .vaultLocked, World.init) :=
  set_vault_locked_atomic World.init "alpha" (.num 7) rfl rfl

/-- Claim C7: `delete key` returns `false` when `key` is absent, leaving
everything unchanged.  When `key` is present it removes the mapping entry
first and then attempts to delete the blob file: it returns `true` when
the file exists (and is removed), and `false` when the file deletion
fails because the file is already gone — the mapping entry is removed
either way, so a subsequent `get key dflt` returns `dflt`.  (The
key-uniqueness hypothesis models Python `dict` keys.) -/
theorem delete_semantics (w : World) (key : String) (dflt : JsonValue)
    (hnd : (w.mm.memory.map Prod.fst).Nodup) :
    (assocGet w.mm.memory key = none → MemoryManager.delete w key = (false, w)) ∧
    (∀ f, assocGet w.mm.memory key = some f →
      (MemoryManager.delete w key).2.mm.memory = assocErase w.mm.memory key ∧
      ((FS.readBlob w.fs f).isSome → (MemoryManager.delete w key).1 = true) ∧
      (FS.readBlob w.fs f = none → (MemoryManager.delete w key).1 = false) ∧
      MemoryManager.get (MemoryManager.delete w key).2 key dflt = .ok dflt) := by
  constructor
  · intro habs
    simp [MemoryManager.delete, habs]
  · intro f hf
    have hget : MemoryManager.get (MemoryManager.delete w key).2 key dflt = .ok dflt := by
      have hmem : (MemoryManager.delete w key).2.mm.memory = assocErase w.mm.memory key := by
        simp only [MemoryManager.delete, hf]
        rcases hrb : FS.removeBlob { w with
            mm := { w.mm with memory := assocErase w.mm.memory key } }.fs f with _ | fs₂ <;>
          simp [hrb]
      simp [MemoryManager.get, hmem, assocGet_assocErase_self _ _ hnd]
    refine ⟨?_, ?_, ?_, hget⟩
    · simp only [MemoryManager.delete, hf]
      rcases hrb : FS.removeBlob { w with
          mm := { w.mm with memory := assocErase w.mm.memory key } }.fs f with _ | fs₂ <;>
        simp [hrb]
    · intro hsome
      rcases hc : FS.readBlob w.fs f with _ | c
      · rw [hc] at hsome
        simp at hsome
      · simp [MemoryManager.delete, hf, FS.removeBlob, FS.readBlob] at hc ⊢
        simp [hc]
    · intro hnone
      simp only [FS.readBlob] at hnone
      simp [MemoryManager.delete, hf, FS.removeBlob, hnone]

/-- Witness for C7: in `w1` the key `"alpha"` is present with an existing
blob file, `"missing"` is absent. -/
theorem delete_semantics_witness :
    MemoryManager.delete w1 "missing" = (false, w1) ∧
    (MemoryManager.delete w1 "alpha").1 = true ∧
    MemoryManager.get (MemoryManager.delete w1 "alpha").2 "alpha" .null = .ok .null := by
  have h₁ := (delete_semantics w1 "missing" .null (by simp [w1, w0, World.init,
    World.setPassword, Storage.setPassword, MemoryManager.set, Storage.encrypt,
    assocSet, dumps])).1 (by rfl)
  have h₂ := (delete_semantics w1 "alpha" .null (by simp [w1, w0, World.init,
    World.setPassword, Storage.setPassword, MemoryManager.set, Storage.encrypt,
    assocSet, dumps])).2 1 (by rfl)
  exact ⟨h₁, h₂.2.1 (by rfl), h₂.2.2.2⟩

/-- `w1` after `save("s")`, `delete("alpha")`, `load("s")`: the restored
mapping still names blob `1`, whose file was deleted — a stale snapshot. -/
def wStale : World :=
  (MemoryManager.load (MemoryManager.delete (MemoryManager.save w1 "s").2 "alpha").2 "s").2

/-- Claim C6: `get key dflt` returns `dflt` without error when `key` is
absent from the mapping; when `key` is present, every failure of the
read/decrypt/deserialize pipeline — missing blob file, failed decryption,
non-JSON plaintext — surfaces as a `readFailure` error naming `key`, and
a successful pipeline returns its value: a failure is never silently
converted to `dflt`. -/
theorem get_error_wrapping (w : World) (key : String) (dflt : JsonValue) :
    (assocGet w.mm.memory key = none → MemoryManager.get w key dflt = .ok dflt) ∧
    (∀ f, assocGet w.mm.memory key = some f →
      (FS.readBlob w.fs f = none →
        MemoryManager.get w key dflt = .error (.readFailure key .fileNotFound)) ∧
      (∀ c e, FS.readBlob w.fs f = some c →
        Storage.decrypt w.mm.storage c = .error e →
        MemoryManager.get w key dflt = .error (.readFailure key e)) ∧
      (∀ c p, FS.readBlob w.fs f = some c →
        Storage.decrypt w.mm.storage c = .ok p → loads p = none →
        MemoryManager.get w key dflt = .error (.readFailure key .jsonDecodeError)) ∧
      (∀ c p v, FS.readBlob w.fs f = some c →
        Storage.decrypt w.mm.storage c = .ok p → loads p = some v →
        MemoryManager.get w key dflt = .ok v)) := by
  refine ⟨fun habs => by simp [MemoryManager.get, habs], fun f hf => ⟨?_, ?_, ?_, ?_⟩⟩
  · intro hnone
    simp [MemoryManager.get, hf, hnone]
  · intro c e hc he
    simp [MemoryManager.get, hf, hc, he]
  · intro c p hc hp hload
    simp [MemoryManager.get, hf, hc, hp, hload]
  · intro c p v hc hp hload
    simp [MemoryManager.get, hf, hc, hp, hload]

/-- Witness for C6: absent key returns the default; a stale mapping to a
deleted blob, and decryption under a wrong-password key, both surface as
`readFailure` naming the key; an intact pipeline returns the stored value. -/
theorem get_error_wrapping_witness :
    MemoryManager.get World.init "alpha" (.num 5) = .ok (.num 5) ∧
    MemoryManager.get wStale "alpha" .null = .error (.readFailure "alpha" .fileNotFound) ∧
    MemoryManager.get (World.vaultUnlock w1 "wrong").2 "alpha" .null
      = .error (.readFailure "alpha" .authenticationFailed) ∧
    MemoryManager.get w1 "alpha" .null = .ok (.num 42) :=
  ⟨(get_error_wrapping World.init "alpha" (.num 5)).1 rfl,
   (((get_error_wrapping wStale "alpha" .null).2 1 rfl).1 rfl),
   ((((get_error_wrapping (World.vaultUnlock w1 "wrong").2 "alpha" .null).2 1 rfl).2.1
      (.token ⟨"hunter2", 0⟩ (dumps (.num 42))) .authenticationFailed rfl rfl)),
   ((((get_error_wrapping w1 "alpha" .null).2 1 rfl).2.2.2
      (.token ⟨"hunter2", 0⟩ (dumps (.num 42))) (dumps (.num 42)) (.num 42) rfl rfl rfl))⟩

/-- Claim C1, evaluated at the locked store `w1locked` (lock flag set,
key `"alpha"` present): `set`, `clear`, `save` and `load` each fail with
the `memoryLocked` error leaving the world unchanged, `get` still
succeeds, and `lock`/`unlock` move the flag as described — but `delete`,
contrary to the claim (and to `lock()`'s own documented purpose of
preventing modifications), performs no lock check: it mutates the locked
store, removing the mapping entry and the blob file and returning `true`. -/
theorem locked_blocks_all_but_delete :
    MemoryManager.set w1locked "beta" (.num 7) = (.error .memoryLocked, w1locked) ∧
    MemoryManager.clear w1locked = (.error .memoryLocked, w1locked) ∧
    MemoryManager.save w1locked "s" = (.error .memoryLocked, w1locked) ∧
    MemoryManager.load w1locked "s" = (.error .memoryLocked, w1locked) ∧
    MemoryManager.get w1locked "alpha" .null = .ok (.num 42) ∧
    (MemoryManager.lock w1).mm.locked = true ∧
    (MemoryManager.unlock w1locked).mm.locked = false ∧
    (MemoryManager.delete w1locked "alpha").1 = true ∧
    (MemoryManager.delete w1locked "alpha").2.mm.memory = [] ∧
    FS.readBlob (MemoryManager.delete w1locked "alpha").2.fs 1 = none :=
  ⟨rfl, rfl, rfl, rfl, rfl, rfl, rfl, rfl, rfl, rfl⟩

/-- Counterexample to claim C2 as stated: in `w1` the key `"alpha"` is
mapped to blob `1`; the overwriting `set("alpha", 99)` succeeds, yet the
old blob file `1` is **not** deleted — it still holds its old token
afterwards (the source's `set` never removes the previous blob). -/
theorem set_overwrite_old_blob_not_deleted :
    assocGet w1.mm.memory "alpha" = some 1 ∧
    (MemoryManager.set w1 "alpha" (.num 99)).1 = .ok () ∧
    FS.readBlob (MemoryManager.set w1 "alpha" (.num 99)).2.fs 1
      = some (.token ⟨"hunter2", 0⟩ (dumps (.num 42))) :=
  ⟨rfl, rfl, rfl⟩

/-- Claim C2 as amended: a successful `set key v` on a key already mapped
to blob `f` repoints the mapping to a fresh random identifier (the next
oracle token, distinct from `f`) and creates the new blob file under it;
the old blob file is neither edited in place nor deleted — its content is
unchanged, left orphaned on disk. -/
theorem set_overwrite_fresh_blob_orphans_old (w : World) (key : String)
    (v : JsonValue) (f : Nat) (k : FernetKey)
    (hnl : w.mm.locked = false) (hk : w.mm.storage.fernet = some k)
    (_hold : assocGet w.mm.memory key = some f) (hfresh : f ≠ w.nextToken) :
    (MemoryManager.set w key v).1 = .ok () ∧
    assocGet (MemoryManager.set w key v).2.mm.memory key = some w.nextToken ∧
    FS.readBlob (MemoryManager.set w key v).2.fs w.nextToken
      = some (.token k (dumps v)) ∧
    FS.readBlob (MemoryManager.set w key v).2.fs f = FS.readBlob w.fs f := by
  simp only [MemoryManager.set, hnl, if_false, Storage.encrypt, hk]
  refine ⟨rfl, ?_, ?_, ?_⟩
  · simp [assocGet_assocSet_self]
  · simp [FS.readBlob, FS.writeBlob, assocGet_assocSet_self]
  · simp [FS.readBlob, FS.writeBlob, assocGet_assocSet_ne _ _ _ _ hfresh]

/-- Witness for the amended C2 at the concrete store `w1`. -/
theorem set_overwrite_fresh_blob_orphans_old_witness :
    (MemoryManager.set w1 "alpha" (.num 99)).1 = .ok () ∧
    assocGet (MemoryManager.set w1 "alpha" (.num 99)).2.mm.memory "alpha" = some 2 ∧
    FS.readBlob (MemoryManager.set w1 "alpha" (.num 99)).2.fs 2
      = some (.token ⟨"hunter2", 0⟩ (dumps (.num 99))) ∧
    FS.readBlob (MemoryManager.set w1 "alpha" (.num 99)).2.fs 1
      = FS.readBlob w1.fs 1 :=
  set_overwrite_fresh_blob_orphans_old w1 "alpha" (.num 99) 1 ⟨"hunter2", 0⟩
    rfl rfl rfl (by decide)

/-- Counterexample to claim C3 as stated: after `set("alpha", 42)` under
the key derived from `"hunter2"` and a vault `unlock("wrong")` with the
wrong password, `get("alpha")` does not raise the `AuthenticationFailed`
error itself — `MemoryManager.get` catches it and re-raises the
`ReadFailure` error naming the key, with the authentication failure as
its cause (and it returns no value). -/
theorem wrong_password_get_error_is_wrapped :
    (World.vaultUnlock w1 "wrong").1 = true ∧
    MemoryManager.get (World.vaultUnlock w1 "wrong").2 "alpha" .null
      = .error (.readFailure "alpha" .authenticationFailed) ∧
    MemoryManager.get (World.vaultUnlock w1 "wrong").2 "alpha" .null
      ≠ .error .authenticationFailed :=
  ⟨rfl, rfl, by
    intro hcontra
    have h2 : Err.readFailure "alpha" Err.authenticationFailed
        = Err.authenticationFailed := Except.error.inj hcontra
    exact absurd h2 (by simp)⟩

/-- Claim C3 as amended: for a key set while the vault held the key `k`
derived from the correct password, if the vault is then unlocked with a
different password (deriving a key other than `k` from the persisted
salt), `get` on that key fails with a `ReadFailure` error naming the key
whose cause is the `AuthenticationFailed` integrity-check failure — it
never returns any value, plausible or otherwise. -/
theorem wrong_password_get_fails (w : World) (key : String) (v dflt : JsonValue)
    (k : FernetKey) (wrongPw : String) (s : Nat)
    (hnl : w.mm.locked = false) (hk : w.mm.storage.fernet = some k)
    (hsalt : w.fs.salt = some s) (hwrong : FernetKey.mk wrongPw s ≠ k) :
    (World.vaultUnlock (MemoryManager.set w key v).2 wrongPw).1 = true ∧
    MemoryManager.get (World.vaultUnlock (MemoryManager.set w key v).2 wrongPw).2
      key dflt = .error (.readFailure key .authenticationFailed) := by
  simp only [MemoryManager.set, hnl, if_false, Storage.encrypt, hk]
  constructor
  · simp [World.vaultUnlock, Storage.unlock, Storage.loadSalt, FS.writeBlob, hsalt]
  · simp [World.vaultUnlock, Storage.unlock, Storage.loadSalt, FS.writeBlob, hsalt,
      MemoryManager.get, assocGet_assocSet_self, FS.readBlob,
      Storage.decrypt, Ne.symm hwrong]

/-- Witness for the amended C3 at the concrete store `w0` (password
`"hunter2"`, salt `0`): unlocking with `"wrong"` reports success, and
`get` then fails with the key-naming `ReadFailure` caused by the failed
integrity check. -/
theorem wrong_password_get_fails_witness :
    (World.vaultUnlock (MemoryManager.set w0 "alpha" (.num 42)).2 "wrong").1 = true ∧
    MemoryManager.get
      (World.vaultUnlock (MemoryManager.set w0 "alpha" (.num 42)).2 "wrong").2
      "alpha" .null = .error (.readFailure "alpha" .authenticationFailed) :=
  wrong_password_get_fails w0 "alpha" (.num 42) .null ⟨"hunter2", 0⟩ "wrong" 0
    rfl rfl rfl (by decide)

/-- Counterexample to claim C5 as stated: on a fresh store with no salt
file, `Storage._load_salt` does raise the `NotInitialized` error, but
`Storage.unlock` catches every exception and returns `false` — the normal
boolean return `(false, unchanged storage)`, not a `NotInitialized`
failure. -/
theorem unlock_without_salt_returns_false :
    Storage.loadSalt World.init.fs = .error .notInitialized ∧
    Storage.unlock World.init.mm.storage "pw" World.init.fs
      = (false, World.init.mm.storage) :=
  ⟨rfl, rfl⟩

/-- Claim C5 as amended: when no salt file has been persisted,
`unlock(password)` returns `false` (the `NotInitialized` failure raised
by the salt load is caught internally and converted into the `false`
return); when a salt file exists, `unlock` always returns `true` and
holds the re-derived key, regardless of whether the password is correct —
the derivation step cannot fail, and wrong-password detection is deferred
to a later decryption. -/
theorem unlock_result (st : Storage) (password : String) (fs : FS) :
    (fs.salt = none →
      Storage.loadSalt fs = .error .notInitialized ∧
      Storage.unlock st password fs = (false, st)) ∧
    (∀ s, fs.salt = some s →
      Storage.unlock st password fs
        = (true, { st with fernet := some ⟨password, s⟩ })) := by
  constructor
  · intro hnone
    constructor
    · simp [Storage.loadSalt, hnone]
    · simp [Storage.unlock, Storage.loadSalt, hnone]
  · intro s hs
    simp [Storage.unlock, Storage.loadSalt, hs]

/-- Witness for the amended C5: a fresh store (no salt) yields `false`;
the store `w0` (salt `0` persisted under password `"hunter2"`) yields
`true` even for the wrong password `"wrong"`. -/
theorem unlock_result_witness :
    Storage.unlock World.init.mm.storage "pw" World.init.fs
      = (false, World.init.mm.storage) ∧
    Storage.unlock w0.mm.storage "wrong" w0.fs
      = (true, { w0.mm.storage with fernet := some ⟨"wrong", 0⟩ }) :=
  ⟨((unlock_result World.init.mm.storage "pw" World.init.fs).1 rfl).2,
   (unlock_result w0.mm.storage "wrong" w0.fs).2 0 rfl⟩

/-- Claim C9: `save` is refused with the `Locked` error whenever the lock
flag is set, so every snapshot `save` succeeds in writing records the
lock flag as `false`; consequently any successful `load` of a snapshot
that `save` produced leaves the index in the unlocked state. -/
theorem save_records_unlocked (w w' : World) (name : String)
    (hok : (MemoryManager.save w name).1 = .ok ()) :
    FS.readSnapshot (MemoryManager.save w name).2.fs name
      = some ⟨w.mm.memory, false⟩ ∧
    ((MemoryManager.load w' name).1 = .ok () →
      FS.readSnapshot w'.fs name = some ⟨w.mm.memory, false⟩ →
      (MemoryManager.load w' name).2.mm.locked = false) := by
  have hnl : w.mm.locked = false := by
    by_cases hl : w.mm.locked
    · simp [MemoryManager.save, hl] at hok
    · simpa using hl
  constructor
  · simp [MemoryManager.save, hnl, FS.readSnapshot, FS.writeSnapshot,
      assocGet_assocSet_self]
  · intro hld hsnap
    have hnl' : w'.mm.locked = false := by
      by_cases hl : w'.mm.locked
      · simp [MemoryManager.load, hl] at hld
      · simpa using hl
    simp [MemoryManager.load, hnl', hsnap]

/-- Witness for C9: saving at the concrete unlocked store `w1` and
re-loading the snapshot into the saved state ends unlocked. -/
theorem save_records_unlocked_witness :
    FS.readSnapshot (MemoryManager.save w1 "snap").2.fs "snap"
      = some ⟨w1.mm.memory, false⟩ ∧
    (MemoryManager.load (MemoryManager.save w1 "snap").2 "snap").2.mm.locked
      = false := by
  have h := save_records_unlocked w1 (MemoryManager.save w1 "snap").2 "snap" rfl
  exact ⟨h.1, h.2 rfl h.1⟩

/-! ### Freshness-oracle invariants for the blob identifiers (claim C8) -/

/-- Every blob identifier mentioned by the live mapping or by a stored
snapshot was drawn from the freshness oracle (is below the next token),
and within the mapping and within each snapshot identifiers are pairwise
distinct. -/
def Inv (w : World) : Prop :=
  (∀ p ∈ w.mm.memory, p.2 < w.nextToken) ∧
  w.mm.memory.Pairwise (fun a b => a.2 ≠ b.2) ∧
  (∀ q ∈ w.fs.snapshots,
    (∀ p ∈ q.2.memory, p.2 < w.nextToken) ∧
    q.2.memory.Pairwise (fun a b => a.2 ≠ b.2))

theorem removeBlob_snapshots {fs fs' : FS} {f : Nat}
    (h : fs.removeBlob f = some fs') : fs'.snapshots = fs.snapshots := by
  simp only [FS.removeBlob] at h
  rcases h2 : assocGet fs.blobs f with _ | c <;> rw [h2] at h <;> simp at h
  rw [← h]

theorem removeBlobs_snapshots (l : List Nat) (fs : FS) :
    (FS.removeBlobs fs l).snapshots = fs.snapshots := by
  induction l generalizing fs with
  | nil => rfl
  | cons f rest ih =>
    simp only [FS.removeBlobs]
    rcases h : fs.removeBlob f with _ | fs'
    · exact ih fs
    · rw [ih fs', removeBlob_snapshots h]

theorem nextToken_runOp_mono (w : World) (op : Op) :
    w.nextToken ≤ (runOp w op).nextToken := by
  cases op with
  | opSetPassword p =>
    simp [runOp, World.setPassword, Storage.setPassword, Nat.le_succ]
  | opVaultUnlock p => simp [runOp, World.vaultUnlock]
  | opSet k v =>
    simp only [runOp, MemoryManager.set]
    by_cases hl : w.mm.locked
    · simp [hl]
    · simp only [hl, if_false]
      rcases he : Storage.encrypt w.mm.storage (dumps v) with _ | c
      · simp
      · simp [Nat.le_succ]
  | opGet k d => simp [runOp]
  | opDelete k =>
    simp only [runOp, MemoryManager.delete]
    rcases hm : assocGet w.mm.memory k with _ | f
    · simp
    · rcases hr : FS.removeBlob w.fs f with _ | fs' <;> simp [hr]
  | opClear =>
    simp only [runOp, MemoryManager.clear]
    by_cases hl : w.mm.locked <;> simp [hl]
  | opLock => simp [runOp, MemoryManager.lock]
  | opUnlock => simp [runOp, MemoryManager.unlock]
  | opSave n =>
    simp only [runOp, MemoryManager.save]
    by_cases hl : w.mm.locked <;> simp [hl]
  | opLoad n =>
    simp only [runOp, MemoryManager.load]
    by_cases hl : w.mm.locked
    · simp [hl]
    · rcases hs : FS.readSnapshot w.fs n with _ | s <;> simp [hl, hs]

theorem nextToken_runOps_mono (w : World) (ops : List Op) :
    w.nextToken ≤ (runOps w ops).nextToken := by
  induction ops generalizing w with
  | nil => exact Nat.le_refl _
  | cons op rest ih =>
    exact Nat.le_trans (nextToken_runOp_mono w op) (ih (runOp w op))

theorem inv_runOp (w : World) (op : Op) (hw : Inv w) : Inv (runOp w op) := by
  obtain ⟨h1, h2, h3⟩ := hw
  have hmono := nextToken_runOp_mono w op
  cases op with
  | opSetPassword p =>
    refine ⟨fun p' hp => Nat.lt_of_lt_of_le (h1 p' hp) hmono, h2, fun q hq => ?_⟩
    have hq' : q ∈ w.fs.snapshots := hq
    exact ⟨fun p' hp => Nat.lt_of_lt_of_le ((h3 q hq').1 p' hp) hmono, (h3 q hq').2⟩
  | opVaultUnlock p => exact ⟨h1, h2, h3⟩
  | opSet k v =>
    simp only [runOp, MemoryManager.set]
    by_cases hl : w.mm.locked
    · simpa [hl] using ⟨h1, h2, h3⟩
    · simp only [hl, if_false]
      rcases he : Storage.encrypt w.mm.storage (dumps v) with _ | c
      · exact ⟨h1, h2, h3⟩
      · refine ⟨?_, ?_, ?_⟩
        · intro p hp
          rcases mem_assocSet hp with hin | heq
          · exact Nat.lt_succ_of_lt (h1 p hin)
          · rw [heq]; exact Nat.lt_succ_self _
        · exact pairwise_ids_assocSet _ _ _
            (fun p hp => Nat.ne_of_lt (h1 p hp)) h2
        · intro q hq
          have hq' : q ∈ w.fs.snapshots := hq
          exact ⟨fun p' hp => Nat.lt_succ_of_lt ((h3 q hq').1 p' hp), (h3 q hq').2⟩
  | opGet k d => exact ⟨h1, h2, h3⟩
  | opDelete k =>
    have hE1 : ∀ p ∈ assocErase w.mm.memory k, p.2 < w.nextToken :=
      fun p hp => h1 p ((assocErase_sublist _ _).mem hp)
    have hE2 := h2.sublist (assocErase_sublist w.mm.memory k)
    simp only [runOp, MemoryManager.delete]
    split
    · exact ⟨h1, h2, h3⟩
    · split
      next fs' hr =>
        refine ⟨hE1, hE2, ?_⟩
        intro q hq
        rw [removeBlob_snapshots hr] at hq
        exact h3 q hq
      next hr => exact ⟨hE1, hE2, h3⟩
  | opClear =>
    by_cases hl : w.mm.locked
    · simpa [runOp, MemoryManager.clear, hl] using ⟨h1, h2, h3⟩
    · have hl' : w.mm.locked = false := by simpa using hl
      have hcl : MemoryManager.clear w = (.ok (), { w with
          fs := w.fs.removeBlobs (w.mm.memory.map (·.2)),
          mm := { w.mm with memory := [] } }) := by
        simp [MemoryManager.clear, hl']
      simp only [runOp, hcl]
      refine ⟨by simp, by simp, ?_⟩
      intro q hq
      rw [removeBlobs_snapshots] at hq
      exact h3 q hq
  | opLock => exact ⟨h1, h2, h3⟩
  | opUnlock => exact ⟨h1, h2, h3⟩
  | opSave n =>
    simp only [runOp, MemoryManager.save]
    by_cases hl : w.mm.locked
    · simpa [hl] using ⟨h1, h2, h3⟩
    · simp only [hl, if_false]
      refine ⟨h1, h2, ?_⟩
      intro q hq
      simp only [FS.writeSnapshot] at hq
      rcases mem_assocSet hq with hin | heq
      · exact h3 q hin
      · rw [heq]
        exact ⟨h1, h2⟩
  | opLoad n =>
    simp only [runOp, MemoryManager.load]
    by_cases hl : w.mm.locked
    · simpa [hl] using ⟨h1, h2, h3⟩
    · simp only [hl, if_false]
      rcases hs : FS.readSnapshot w.fs n with _ | s
      · exact ⟨h1, h2, h3⟩
      · have hmem : (n, s) ∈ w.fs.snapshots := mem_of_assocGet_eq_some hs
        exact ⟨(h3 (n, s) hmem).1, (h3 (n, s) hmem).2, h3⟩

theorem inv_runOps (w : World) (ops : List Op) (hw : Inv w) :
    Inv (runOps w ops) := by
  induction ops generalizing w with
  | nil => exact hw
  | cons op rest ih => exact ih (runOp w op) (inv_runOp w op hw)

theorem inv_init : Inv World.init := by
  refine ⟨by simp [World.init], by simp [World.init], by simp [World.init]⟩

theorem inv_reach (ops : List Op) : Inv (reach ops) :=
  inv_runOps World.init ops inv_init

theorem delete_nextToken (w : World) (k : String) :
    (MemoryManager.delete w k).2.nextToken = w.nextToken := by
  simp only [MemoryManager.delete]
  rcases hm : assocGet w.mm.memory k with _ | f
  · simp
  · rcases hr : FS.removeBlob { w with
        mm := { w.mm with memory := assocErase w.mm.memory k } }.fs f with _ | fs' <;>
      simp [hr]

theorem set_ok_memory (w : World) (key : String) (v : JsonValue)
    (hok : (MemoryManager.set w key v).1 = .ok ()) :
    (MemoryManager.set w key v).2.mm.memory = assocSet w.mm.memory key w.nextToken := by
  simp only [MemoryManager.set] at hok ⊢
  by_cases hl : w.mm.locked
  · simp [hl] at hok
  · simp only [hl, if_false] at hok ⊢
    rcases he : Storage.encrypt w.mm.storage (dumps v) with _ | c
    · rw [he] at hok; simp at hok
    · rfl

/-- Claim C8: at every state reachable from a fresh store under the
operations (blob identifiers modelled as fresh random tokens from the
oracle), the live mapping holds pairwise-distinct blob identifiers, so
each identifier is mapped by at most one live key; and when a `delete`
at a reachable state removes the identifier `f` mapped by `k`, no later
successful `set` — after any further sequence of operations — ever
assigns `f` again: the identifier it assigns is the oracle's next token,
which stays strictly above every identifier ever drawn. -/
theorem blob_ids_unique_never_reused (ops ops2 : List Op) (k k' : String)
    (f : Nat) (v : JsonValue)
    (hdel : assocGet (reach ops).mm.memory k = some f) :
    (reach ops).mm.memory.Pairwise (fun a b => a.2 ≠ b.2) ∧
    ((MemoryManager.set (runOps (MemoryManager.delete (reach ops) k).2 ops2) k' v).1
        = .ok () →
      assocGet (MemoryManager.set
          (runOps (MemoryManager.delete (reach ops) k).2 ops2) k' v).2.mm.memory k'
        = some (runOps (MemoryManager.delete (reach ops) k).2 ops2).nextToken ∧
      (runOps (MemoryManager.delete (reach ops) k).2 ops2).nextToken ≠ f) := by
  have hInv := inv_reach ops
  refine ⟨hInv.2.1, fun hok => ?_⟩
  constructor
  · rw [set_ok_memory _ k' v hok, assocGet_assocSet_self]
  · have hf : f < (reach ops).nextToken :=
      hInv.1 (k, f) (mem_of_assocGet_eq_some hdel)
    have hmono := nextToken_runOps_mono (MemoryManager.delete (reach ops) k).2 ops2
    rw [delete_nextToken _ k] at hmono
    exact Nat.ne_of_gt (Nat.lt_of_lt_of_le hf hmono)

/-- The concrete trace used by the C8 witness: set a password, then set
one key (its blob gets identifier `1`). -/
def opsW : List Op := [.opSetPassword "hunter2", .opSet "alpha" (.num 42)]

/-- Witness for C8 along the trace `opsW`: `"alpha"` maps to blob `1`;
the mapping's identifiers are pairwise distinct; after deleting
`"alpha"` the next successful `set` assigns identifier `2 ≠ 1`. -/
theorem blob_ids_unique_never_reused_witness :
    (reach opsW).mm.memory.Pairwise (fun a b => a.2 ≠ b.2) ∧
    (assocGet (MemoryManager.set
        (runOps (MemoryManager.delete (reach opsW) "alpha").2 []) "beta"
        (.num 7)).2.mm.memory "beta"
      = some (runOps (MemoryManager.delete (reach opsW) "alpha").2 []).nextToken ∧
     (runOps (MemoryManager.delete (reach opsW) "alpha").2 []).nextToken ≠ 1) :=
  ⟨(blob_ids_unique_never_reused opsW [] "alpha" "beta" 1 (.num 7) rfl).1,
   (blob_ids_unique_never_reused opsW [] "alpha" "beta" 1 (.num 7) rfl).2 rfl⟩

end PyFastMem
